import Mathlib

/-!
# Verification of the verifi-ed (VerifiedProtocol) core

Shallow embedding of the core subsystems of the repository:

* the ARC-4 record codec (wire format: `[2B BE length][struct]` with a
  22-byte fixed header of string offsets, an 8-byte big-endian score and
  timestamp, and length-prefixed UTF-8 string payloads at their offsets);
* the frontend credibility-tier computations (SubmitPage, VerifierPage,
  ExplorerPage, ScoreCircle, record tiers);
* the SubmitPage on-chain argument construction (`handleSubmit`);
* the evidence-scoring renormalization and the reputation-aggregation
  engine (time decay, trust index, badge eligibility).

The backend Python engines are not part of the checked-in sources (only the
frontend and the design documents are), so the codec, scoring and
reputation definitions below are modelled from the specification; the
frontend definitions are translated directly from the JSX sources.
-/

namespace VerifiEd

/-! ## Big-endian byte strings -/

/-- Big-endian encoding of `n` into exactly `k` bytes (most significant first). -/
def toBytesBE : ℕ → ℕ → List ℕ
  | 0, _ => []
  | k + 1, n => toBytesBE k (n / 256) ++ [n % 256]

/-- Big-endian interpretation of a byte list. -/
def fromBytesBE (l : List ℕ) : ℕ :=
  l.foldl (fun a b => 256 * a + b) 0

@[simp] theorem length_toBytesBE (k n : ℕ) : (toBytesBE k n).length = k := by
  induction k generalizing n with
  | zero => rfl
  | succ k ih => simp [toBytesBE, ih]

theorem fromBytesBE_append_singleton (l : List ℕ) (b : ℕ) :
    fromBytesBE (l ++ [b]) = 256 * fromBytesBE l + b := by
  simp [fromBytesBE, List.foldl_append]

theorem fromBytesBE_toBytesBE {k n : ℕ} (h : n < 256 ^ k) :
    fromBytesBE (toBytesBE k n) = n := by
  induction k generalizing n with
  | zero =>
    simp [toBytesBE, fromBytesBE]
    omega
  | succ k ih =>
    have hdiv : n / 256 < 256 ^ k := by
      rw [Nat.div_lt_iff_lt_mul (by norm_num)]
      calc n < 256 ^ (k + 1) := h
        _ = 256 ^ k * 256 := by ring
    rw [toBytesBE, fromBytesBE_append_singleton, ih hdiv]
    omega

theorem toBytesBE_lt (k n : ℕ) : ∀ b ∈ toBytesBE k n, b < 256 := by
  induction k generalizing n with
  | zero => simp [toBytesBE]
  | succ k ih =>
    intro b hb
    rw [toBytesBE] at hb
    rcases List.mem_append.mp hb with h | h
    · exact ih _ _ h
    · simp at h; omega

/-! ## UTF-8 validity (RFC 3629)

The decoder rejects string payloads that are not valid UTF-8; we model the
byte-level validity predicate exactly. -/

/-- Is the byte a UTF-8 continuation byte (`0x80`–`0xBF`)? -/
def isCont (b : ℕ) : Bool := 128 ≤ b && b ≤ 191

/-- RFC 3629 UTF-8 validity of a byte sequence. -/
def validUtf8 : List ℕ → Bool
  | [] => true
  | b :: t =>
    if b < 128 then validUtf8 t
    else if 194 ≤ b && b ≤ 223 then
      match t with
      | b1 :: t1 => isCont b1 && validUtf8 t1
      | [] => false
    else if b = 224 then
      match t with
      | b1 :: b2 :: t2 => (160 ≤ b1 && b1 ≤ 191) && isCont b2 && validUtf8 t2
      | _ => false
    else if (225 ≤ b && b ≤ 236) || b = 238 || b = 239 then
      match t with
      | b1 :: b2 :: t2 => isCont b1 && isCont b2 && validUtf8 t2
      | _ => false
    else if b = 237 then
      match t with
      | b1 :: b2 :: t2 => (128 ≤ b1 && b1 ≤ 159) && isCont b2 && validUtf8 t2
      | _ => false
    else if b = 240 then
      match t with
      | b1 :: b2 :: b3 :: t3 =>
          (144 ≤ b1 && b1 ≤ 191) && isCont b2 && isCont b3 && validUtf8 t3
      | _ => false
    else if 241 ≤ b && b ≤ 243 then
      match t with
      | b1 :: b2 :: b3 :: t3 => isCont b1 && isCont b2 && isCont b3 && validUtf8 t3
      | _ => false
    else if b = 244 then
      match t with
      | b1 :: b2 :: b3 :: t3 =>
          (128 ≤ b1 && b1 ≤ 143) && isCont b2 && isCont b3 && validUtf8 t3
      | _ => false
    else false

/-! ## SkillRecord and the ARC-4 wire format

Modelled from the spec: the backend codec (`backend/core/arc4_decoder.py`
and the contract-side encoder) is not among the checked-in sources; the
wire format is taken from §4.1 of the design document and the
`ARC4Decoder` section of the architecture document:
`[2B record_len][2B mode_offset][2B domain_offset][8B score]
[2B artifact_offset][8B timestamp][length-prefixed strings at offsets]`,
offsets measured from the start of the struct. -/

/-- One attestation.  String fields are carried as their UTF-8 byte
sequences, which is what the wire format stores. -/
structure SkillRecord where
  mode : List ℕ
  domain : List ℕ
  score : ℕ
  artifact_hash : List ℕ
  timestamp : ℕ
  deriving Repr, DecidableEq

/-- The struct body of an encoded record: fixed 22-byte header of
offsets/score/timestamp followed by the three length-prefixed payloads. -/
def encodeStruct (r : SkillRecord) : List ℕ :=
  toBytesBE 2 22 ++
  toBytesBE 2 (24 + r.mode.length) ++
  toBytesBE 8 r.score ++
  toBytesBE 2 (26 + r.mode.length + r.domain.length) ++
  toBytesBE 8 r.timestamp ++
  toBytesBE 2 r.mode.length ++ r.mode ++
  toBytesBE 2 r.domain.length ++ r.domain ++
  toBytesBE 2 r.artifact_hash.length ++ r.artifact_hash

/-- A full encoded record: 2-byte big-endian length prefix, then the struct. -/
def encodeRecord (r : SkillRecord) : List ℕ :=
  toBytesBE 2 (encodeStruct r).length ++ encodeStruct r

/-- Encoding of a sequence of records: sequential concatenation. -/
def encodeRecords (rs : List SkillRecord) : List ℕ :=
  (rs.map encodeRecord).flatten

/-- Validity of a record: the data-model invariants (`score ∈ [0,100]`,
`timestamp > 0`, 64-character artifact hash) together with
representability on the wire (bytes, UTF-8 strings, 16-bit lengths,
64-bit timestamp). -/
structure ValidRecord (r : SkillRecord) : Prop where
  mode_bytes : ∀ b ∈ r.mode, b < 256
  domain_bytes : ∀ b ∈ r.domain, b < 256
  artifact_bytes : ∀ b ∈ r.artifact_hash, b < 256
  mode_utf8 : validUtf8 r.mode = true
  domain_utf8 : validUtf8 r.domain = true
  artifact_utf8 : validUtf8 r.artifact_hash = true
  score_le : r.score ≤ 100
  ts_pos : 0 < r.timestamp
  ts_lt : r.timestamp < 2 ^ 64
  artifact_len : r.artifact_hash.length = 64
  total_lt : 28 + r.mode.length + r.domain.length + r.artifact_hash.length < 2 ^ 16

/-- Decode failure taxonomy of the canonical decoder. -/
inductive DecodeError where
  | truncated
  | invalidOffset
  | utf8
  | fieldBounds
  deriving Repr, DecidableEq

/-- The record length declared by the 2-byte prefix of a blob. -/
def declaredLen (bs : List ℕ) : ℕ := fromBytesBE (bs.take 2)

/-- The struct bytes of the first record of a blob. -/
def firstStruct (bs : List ℕ) : List ℕ := (bs.drop 2).take (declaredLen bs)

/-- The mode-string offset declared by a struct header. -/
def modeOffOf (s : List ℕ) : ℕ := fromBytesBE (s.take 2)

/-- The domain-string offset declared by a struct header. -/
def domainOffOf (s : List ℕ) : ℕ := fromBytesBE ((s.drop 2).take 2)

/-- The score field of a struct header (8-byte big-endian). -/
def scoreOf (s : List ℕ) : ℕ := fromBytesBE ((s.drop 4).take 8)

/-- The artifact-hash offset declared by a struct header. -/
def artOffOf (s : List ℕ) : ℕ := fromBytesBE ((s.drop 12).take 2)

/-- The timestamp field of a struct header (8-byte big-endian). -/
def tsOf (s : List ℕ) : ℕ := fromBytesBE ((s.drop 14).take 8)

/-- The payload length declared by the 2-byte prefix at offset `off`. -/
def payloadLenAt (s : List ℕ) (off : ℕ) : ℕ := fromBytesBE ((s.drop off).take 2)

/-- The string payload at offset `off` of a struct. -/
def payloadAt (s : List ℕ) (off : ℕ) : List ℕ :=
  (s.drop (off + 2)).take (payloadLenAt s off)

/-- A field offset falls outside the struct bounds: either its 2-byte
length prefix or the payload it declares extends past the struct end. -/
def offsetOutOfBounds (s : List ℕ) (off : ℕ) : Prop :=
  s.length < off + 2 ∨ s.length < off + 2 + payloadLenAt s off

instance (s : List ℕ) (off : ℕ) : Decidable (offsetOutOfBounds s off) :=
  decidable_of_iff
    (s.length < off + 2 ∨ s.length < off + 2 + payloadLenAt s off) Iff.rfl

/-- Read the length-prefixed string at byte offset `off` of a struct:
2-byte big-endian length, then that many payload bytes.  `none` when the
offset (or the payload it declares) falls outside the struct. -/
def readString (bs : List ℕ) (off : ℕ) : Option (List ℕ) :=
  if off + 2 ≤ bs.length then
    if off + 2 + payloadLenAt bs off ≤ bs.length then some (payloadAt bs off)
    else none
  else none

/-- Decode one record struct. -/
def decodeStruct (bs : List ℕ) : Except DecodeError SkillRecord :=
  if 22 ≤ bs.length then
    match readString bs (modeOffOf bs), readString bs (domainOffOf bs),
        readString bs (artOffOf bs) with
    | some m, some d, some a =>
      if validUtf8 m && validUtf8 d && validUtf8 a then
        if scoreOf bs ≤ 100 then .ok ⟨m, d, scoreOf bs, a, tsOf bs⟩
        else .error .fieldBounds
      else .error .utf8
    | _, _, _ => .error .invalidOffset
  else .error .truncated

/-- Decode a stored blob: repeatedly consume `[2B length][length bytes]`
until the input is exhausted; any malformed record aborts the whole
decode with an error. -/
def decodeRecords (bs : List ℕ) : Except DecodeError (List SkillRecord) :=
  if bs.isEmpty then .ok []
  else if _h2 : 2 ≤ bs.length then
    let len := fromBytesBE (bs.take 2)
    if _hlen : 2 + len ≤ bs.length then
      match decodeStruct ((bs.drop 2).take len) with
      | .error e => .error e
      | .ok r =>
        match decodeRecords (bs.drop (2 + len)) with
        | .error e => .error e
        | .ok rs => .ok (r :: rs)
    else .error .truncated
  else .error .truncated
termination_by bs.length
decreasing_by
  simp only [List.length_drop]
  omega

/-! ### Round-trip lemmas -/

theorem dropPrefix {l₁ l₂ : List ℕ} {n : ℕ} (h : l₁.length = n) :
    (l₁ ++ l₂).drop n = l₂ := by
  subst h; exact List.drop_left l₁ l₂

theorem takePrefix {l₁ l₂ : List ℕ} {n : ℕ} (h : l₁.length = n) :
    (l₁ ++ l₂).take n = l₁ := by
  subst h; exact List.take_left l₁ l₂

theorem drop_drop_eq (l : List ℕ) (m n : ℕ) : (l.drop m).drop n = l.drop (m + n) := by
  rw [List.drop_drop, Nat.add_comm]

@[simp] theorem length_encodeStruct (r : SkillRecord) :
    (encodeStruct r).length =
      28 + r.mode.length + r.domain.length + r.artifact_hash.length := by
  simp [encodeStruct]
  omega

theorem decodeStruct_encodeStruct {r : SkillRecord} (hr : ValidRecord r) :
    decodeStruct (encodeStruct r) = .ok r := by
  set S := encodeStruct r with hS
  have hlenS : S.length = 28 + r.mode.length + r.domain.length + r.artifact_hash.length :=
    length_encodeStruct r
  have htot := hr.total_lt
  -- navigation: successive drops of the struct
  have h2 : S.drop 2 =
      toBytesBE 2 (24 + r.mode.length) ++
      (toBytesBE 8 r.score ++
       (toBytesBE 2 (26 + r.mode.length + r.domain.length) ++
        (toBytesBE 8 r.timestamp ++
         (toBytesBE 2 r.mode.length ++ (r.mode ++
          (toBytesBE 2 r.domain.length ++ (r.domain ++
           (toBytesBE 2 r.artifact_hash.length ++ r.artifact_hash)))))))) := by
    rw [hS, encodeStruct]
    simp only [List.append_assoc]
    exact dropPrefix (by simp)
  have h4 : S.drop 4 =
      toBytesBE 8 r.score ++
      (toBytesBE 2 (26 + r.mode.length + r.domain.length) ++
       (toBytesBE 8 r.timestamp ++
        (toBytesBE 2 r.mode.length ++ (r.mode ++
         (toBytesBE 2 r.domain.length ++ (r.domain ++
          (toBytesBE 2 r.artifact_hash.length ++ r.artifact_hash))))))) := by
    rw [← drop_drop_eq S 2 2, h2]
    exact dropPrefix (by simp)
  have h12 : S.drop 12 =
      toBytesBE 2 (26 + r.mode.length + r.domain.length) ++
      (toBytesBE 8 r.timestamp ++
       (toBytesBE 2 r.mode.length ++ (r.mode ++
        (toBytesBE 2 r.domain.length ++ (r.domain ++
         (toBytesBE 2 r.artifact_hash.length ++ r.artifact_hash)))))) := by
    rw [← drop_drop_eq S 4 8, h4]
    exact dropPrefix (by simp)
  have h14 : S.drop 14 =
      toBytesBE 8 r.timestamp ++
      (toBytesBE 2 r.mode.length ++ (r.mode ++
       (toBytesBE 2 r.domain.length ++ (r.domain ++
        (toBytesBE 2 r.artifact_hash.length ++ r.artifact_hash))))) := by
    rw [← drop_drop_eq S 12 2, h12]
    exact dropPrefix (by simp)
  have h22 : S.drop 22 =
      toBytesBE 2 r.mode.length ++ (r.mode ++
       (toBytesBE 2 r.domain.length ++ (r.domain ++
        (toBytesBE 2 r.artifact_hash.length ++ r.artifact_hash)))) := by
    rw [← drop_drop_eq S 14 8, h14]
    exact dropPrefix (by simp)
  have h24 : S.drop 24 =
      r.mode ++
       (toBytesBE 2 r.domain.length ++ (r.domain ++
        (toBytesBE 2 r.artifact_hash.length ++ r.artifact_hash))) := by
    rw [← drop_drop_eq S 22 2, h22]
    exact dropPrefix (by simp)
  have h24m : S.drop (24 + r.mode.length) =
      toBytesBE 2 r.domain.length ++ (r.domain ++
        (toBytesBE 2 r.artifact_hash.length ++ r.artifact_hash)) := by
    rw [← drop_drop_eq S 24 r.mode.length, h24]
    exact dropPrefix rfl
  have h26m : S.drop (26 + r.mode.length) =
      r.domain ++ (toBytesBE 2 r.artifact_hash.length ++ r.artifact_hash) := by
    rw [show 26 + r.mode.length = 24 + r.mode.length + 2 by omega,
      ← drop_drop_eq S (24 + r.mode.length) 2, h24m]
    exact dropPrefix (by simp)
  have h26md : S.drop (26 + r.mode.length + r.domain.length) =
      toBytesBE 2 r.artifact_hash.length ++ r.artifact_hash := by
    rw [← drop_drop_eq S (26 + r.mode.length) r.domain.length, h26m]
    exact dropPrefix rfl
  have h28md : S.drop (28 + r.mode.length + r.domain.length) = r.artifact_hash := by
    rw [show 28 + r.mode.length + r.domain.length =
          26 + r.mode.length + r.domain.length + 2 by omega,
      ← drop_drop_eq S (26 + r.mode.length + r.domain.length) 2, h26md]
    exact dropPrefix (by simp)
  -- header field values
  have hmodeOff : fromBytesBE (S.take 2) = 22 := by
    rw [hS, encodeStruct]
    simp only [List.append_assoc]
    rw [takePrefix (by simp)]
    exact fromBytesBE_toBytesBE (by norm_num)
  have hdomOff : fromBytesBE ((S.drop 2).take 2) = 24 + r.mode.length := by
    rw [h2, takePrefix (by simp)]
    exact fromBytesBE_toBytesBE (by omega)
  have hscore : fromBytesBE ((S.drop 4).take 8) = r.score := by
    rw [h4, takePrefix (by simp)]
    exact fromBytesBE_toBytesBE (by have := hr.score_le; norm_num; omega)
  have hartOff : fromBytesBE ((S.drop 12).take 2) =
      26 + r.mode.length + r.domain.length := by
    rw [h12, takePrefix (by simp)]
    exact fromBytesBE_toBytesBE (by omega)
  have hts : fromBytesBE ((S.drop 14).take 8) = r.timestamp := by
    rw [h14, takePrefix (by simp)]
    exact fromBytesBE_toBytesBE (by have := hr.ts_lt; norm_num at this ⊢; omega)
  -- the three string reads
  have hreadMode : readString S 22 = some r.mode := by
    have hlen22 : payloadLenAt S 22 = r.mode.length := by
      rw [payloadLenAt, h22, takePrefix (by simp)]
      exact fromBytesBE_toBytesBE (by omega)
    rw [readString, if_pos (by omega)]
    rw [if_pos (by rw [hlen22]; omega)]
    rw [payloadAt, hlen22, show (22 : ℕ) + 2 = 24 by rfl, h24, takePrefix rfl]
  have hreadDom : readString S (24 + r.mode.length) = some r.domain := by
    have hlen' : payloadLenAt S (24 + r.mode.length) = r.domain.length := by
      rw [payloadLenAt, h24m, takePrefix (by simp)]
      exact fromBytesBE_toBytesBE (by omega)
    rw [readString, if_pos (by omega)]
    rw [if_pos (by rw [hlen']; omega)]
    rw [payloadAt, hlen', show 24 + r.mode.length + 2 = 26 + r.mode.length by omega,
      h26m, takePrefix rfl]
  have hreadArt : readString S (26 + r.mode.length + r.domain.length) =
      some r.artifact_hash := by
    have hlen' : payloadLenAt S (26 + r.mode.length + r.domain.length) =
        r.artifact_hash.length := by
      rw [payloadLenAt, h26md, takePrefix (by simp)]
      exact fromBytesBE_toBytesBE (by omega)
    rw [readString, if_pos (by omega)]
    rw [if_pos (by rw [hlen']; omega)]
    rw [payloadAt, hlen', show 26 + r.mode.length + r.domain.length + 2 =
          28 + r.mode.length + r.domain.length by omega, h28md, List.take_length]
  -- assemble
  rw [decodeStruct]
  rw [if_pos (by omega)]
  simp only [modeOffOf, domainOffOf, scoreOf, artOffOf, tsOf,
    hmodeOff, hdomOff, hscore, hartOff, hts, hreadMode, hreadDom, hreadArt]
  rw [if_pos (by simp [hr.mode_utf8, hr.domain_utf8, hr.artifact_utf8])]
  rw [if_pos hr.score_le]

theorem decodeRecords_encodeRecord_append {r : SkillRecord} (hr : ValidRecord r)
    (tl : List ℕ) :
    decodeRecords (encodeRecord r ++ tl) = (decodeRecords tl).map (List.cons r) := by
  set S := encodeStruct r with hS
  have hSlt : S.length < 2 ^ 16 := by
    rw [length_encodeStruct]
    exact hr.total_lt
  have hbs : encodeRecord r ++ tl = toBytesBE 2 S.length ++ (S ++ tl) := by
    rw [encodeRecord, ← hS]
    simp [List.append_assoc]
  rw [hbs, decodeRecords]
  have hne : (toBytesBE 2 S.length ++ (S ++ tl)).isEmpty = false := by
    simp [toBytesBE]
  rw [if_neg (by simp [hne])]
  rw [dif_pos (by simp)]
  have htake : (toBytesBE 2 S.length ++ (S ++ tl)).take 2 = toBytesBE 2 S.length :=
    takePrefix (by simp)
  have hfb : fromBytesBE (toBytesBE 2 S.length) = S.length :=
    fromBytesBE_toBytesBE (by norm_num at hSlt ⊢; omega)
  simp only [htake, hfb]
  rw [dif_pos (by simp)]
  have hdrop2 : (toBytesBE 2 S.length ++ (S ++ tl)).drop 2 = S ++ tl :=
    dropPrefix (by simp)
  have htakeS : ((toBytesBE 2 S.length ++ (S ++ tl)).drop 2).take S.length = S := by
    rw [hdrop2]; exact takePrefix rfl
  have hdropS : (toBytesBE 2 S.length ++ (S ++ tl)).drop (2 + S.length) = tl := by
    rw [← drop_drop_eq _ 2 S.length, hdrop2]
    exact dropPrefix rfl
  rw [htakeS, hdropS, decodeStruct_encodeStruct hr]
  cases h : decodeRecords tl <;> simp [Except.map]

theorem decodeRecords_encodeRecords {rs : List SkillRecord}
    (h : ∀ r ∈ rs, ValidRecord r) :
    decodeRecords (encodeRecords rs) = .ok rs := by
  induction rs with
  | nil =>
    show decodeRecords [] = Except.ok []
    rw [decodeRecords]
    simp
  | cons r t ih =>
    have hr : ValidRecord r := h r (by simp)
    have ht : ∀ x ∈ t, ValidRecord x := fun x hx => h x (by simp [hx])
    rw [encodeRecords, List.map_cons, List.flatten_cons,
      decodeRecords_encodeRecord_append hr, ← encodeRecords, ih ht]
    rfl

/-! ## Frontend credibility tiers

Translated from the JSX sources: `SubmitPage` (`tierLabel`), `VerifierPage`
(`tierLabel` and the per-record `rTier`), `ExplorerPage` (`tier`), and the
`ScoreCircle` component (`tierLabel` / `tierColor`). -/

/-- SubmitPage `tierLabel` chain: exceptional at 90, strong at 70,
moderate at 50, developing at 30, else minimal. -/
def submitTierLabel (score : ℕ) : String :=
  if 90 ≤ score then "exceptional"
  else if 70 ≤ score then "strong"
  else if 50 ≤ score then "moderate"
  else if 30 ≤ score then "developing"
  else "minimal"

/-- VerifierPage `tierLabel` on `data.credibility_score`. -/
def verifierTierLabel (score : ℕ) : String :=
  if 90 ≤ score then "exceptional"
  else if 70 ≤ score then "strong"
  else if 50 ≤ score then "moderate"
  else if 30 ≤ score then "developing"
  else "minimal"

/-- ExplorerPage `tier` on the rounded `total_reputation`. -/
def explorerTierLabel (score : ℕ) : String :=
  if 90 ≤ score then "exceptional"
  else if 70 ≤ score then "strong"
  else if 50 ≤ score then "moderate"
  else if 30 ≤ score then "developing"
  else "minimal"

/-- VerifierPage `rTier` on the score of each on-chain record. -/
def recordTierLabel (score : ℕ) : String :=
  if 90 ≤ score then "exceptional"
  else if 70 ≤ score then "strong"
  else if 50 ≤ score then "moderate"
  else if 30 ≤ score then "developing"
  else "minimal"

/-- ScoreCircle `tierLabel` (capitalized display labels). -/
def scoreCircleTierLabel (score : ℕ) : String :=
  if 90 ≤ score then "Exceptional"
  else if 70 ≤ score then "Strong"
  else if 50 ≤ score then "Moderate"
  else if 30 ≤ score then "Developing"
  else "Minimal"

/-- ScoreCircle `tierColor` (CSS custom-property names). -/
def scoreCircleTierColor (score : ℕ) : String :=
  if 90 ≤ score then "var(--tier-exceptional)"
  else if 70 ≤ score then "var(--tier-strong)"
  else if 50 ≤ score then "var(--tier-moderate)"
  else if 30 ≤ score then "var(--tier-developing)"
  else "var(--tier-minimal)"

/-- The tier mapping as the spec words it: exceptional ≥ 90, strong 70–89,
moderate 50–69, developing 30–49, else minimal, boundaries inclusive on
the lower bound. -/
def specCredibilityTier (score : ℕ) : String :=
  if 90 ≤ score then "exceptional"
  else if 70 ≤ score ∧ score ≤ 89 then "strong"
  else if 50 ≤ score ∧ score ≤ 69 then "moderate"
  else if 30 ≤ score ∧ score ≤ 49 then "developing"
  else "minimal"

/-! ## SubmitPage on-chain submission arguments (`handleSubmit`)

Translated from `SubmitPage.jsx`:
`scoreVal = Math.round(analysis.overall_score * 100)`,
domainVal is the domain of the first detected domain entry (default
general), with a colon and the subdomain appended when the first entry
carries a truthy subdomain; artifactHash is the first truthy field among
artifact_hash, sha256 and project_hash of the metadata, defaulting to 64
zero characters. -/

/-- One entry of `analysis.domains`. -/
structure DomainEntry where
  domain : String
  subdomain : Option String
  deriving Repr, DecidableEq

/-- The hash-bearing fields of `analysis.metadata`. -/
structure AnalysisMetadata where
  artifact_hash : Option String
  sha256 : Option String
  project_hash : Option String
  deriving Repr, DecidableEq

/-- The fields of the analysis response that `handleSubmit` reads. -/
structure AnalysisResult where
  overall_score : ℚ
  domains : List DomainEntry
  metadata : AnalysisMetadata
  source_type : Option String
  deriving Repr, DecidableEq

/-- JavaScript `x || dflt` on an optional string: an absent field and the
empty string are both falsy. -/
def jsOrString (o : Option String) (dflt : String) : String :=
  match o with
  | some s => if s = "" then dflt else s
  | none => dflt

/-- JavaScript `Math.round` (halves round toward `+∞`). -/
def jsRound (x : ℚ) : ℤ := ⌊x + 1 / 2⌋

/-- The score argument: `Math.round` of `overall_score * 100`. -/
def scoreVal (a : AnalysisResult) : ℤ := jsRound (a.overall_score * 100)

/-- The domain argument: first detected domain (default general), with
a colon and the subdomain appended when the subdomain is truthy. -/
def domainVal (a : AnalysisResult) : String :=
  let base :=
    match a.domains.head? with
    | some d => if d.domain = "" then "general" else d.domain
    | none => "general"
  match a.domains.head? with
  | some d =>
    match d.subdomain with
    | some s => if s = "" then base else base ++ ":" ++ s
    | none => base
  | none => base

/-- The fallback hash: 64 zero characters. -/
def zeroHash : String := String.mk (List.replicate 64 '0')

/-- The artifact-hash argument: first truthy metadata hash field, else
the 64-character zero fallback. -/
def artifactHashVal (a : AnalysisResult) : String :=
  jsOrString a.metadata.artifact_hash
    (jsOrString a.metadata.sha256
      (jsOrString a.metadata.project_hash zeroHash))

/-- The mode argument: `source_type` when truthy, else the ai-graded tag. -/
def modeVal (a : AnalysisResult) : String :=
  jsOrString a.source_type "ai-graded"

/-! ## Evidence scoring: renormalization over evaluated signals

Modelled from the spec: the scoring engine (`ai_scoring/engine.py`) is not
among the checked-in sources.  A signal evaluator either runs (producing a
raw score, possibly `0`) or is skipped because its required metadata is
entirely absent (`rawScore = none`); `overall_score` is the weighted sum
over evaluated signals renormalized by the sum of their weights, and
`confidence` is the fraction of evaluators that ran. -/

/-- The contribution of one evaluator inside a scoring call.  `rawScore = none`
means the evaluator was skipped (required metadata entirely absent). -/
structure Signal where
  weight : ℝ
  rawScore : Option ℝ

/-- The signals whose evaluator actually ran. -/
def evaluatedSignals (sigs : List Signal) : List Signal :=
  sigs.filter (fun s => s.rawScore.isSome)

/-- The raw score of an evaluated signal. -/
noncomputable def rawOf (s : Signal) : ℝ := s.rawScore.getD 0

/-- The `overall_score`: weighted sum over evaluated signals, divided by the
sum of the weights of the evaluated signals. -/
noncomputable def overallScore (sigs : List Signal) : ℝ :=
  ((evaluatedSignals sigs).map (fun s => rawOf s * s.weight)).sum /
    ((evaluatedSignals sigs).map (fun s => s.weight)).sum

/-- The `confidence`: fraction of the defined evaluators that ran. -/
noncomputable def confidence (sigs : List Signal) : ℝ :=
  ((evaluatedSignals sigs).length : ℝ) / (sigs.length : ℝ)

/-! ## Reputation aggregation engine

Modelled from the spec: the reputation engine (`reputation_engine/engine.py`)
is not among the checked-in sources; formulas follow §4.4 of the design
document (the canonical trust-index weighting of step 7). -/

/-- Age of a record in days at evaluation time `now` (Unix seconds). -/
noncomputable def ageDays (now : ℕ) (r : SkillRecord) : ℝ :=
  ((now : ℝ) - (r.timestamp : ℝ)) / 86400

/-- Exponential time decay with a 180-day half-life. -/
noncomputable def decayWeight (now : ℕ) (r : SkillRecord) : ℝ :=
  Real.exp (-0.693 * ageDays now r / 180)

/-- Decay-weighted mean score: `Σ(score·decay) / Σ(decay)`. -/
noncomputable def weightedScore (now : ℕ) (rs : List SkillRecord) : ℝ :=
  (rs.map (fun r => (r.score : ℝ) * decayWeight now r)).sum /
    (rs.map (fun r => decayWeight now r)).sum

/-- The `total_reputation` is the decay-weighted mean score on the 0–100 scale. -/
noncomputable def totalReputation (now : ℕ) (rs : List SkillRecord) : ℝ :=
  weightedScore now rs

/-- Arithmetic mean of the raw scores. -/
noncomputable def scoresMean (rs : List SkillRecord) : ℝ :=
  (rs.map (fun r => (r.score : ℝ))).sum / (rs.length : ℝ)

/-- Population standard deviation of the raw scores. -/
noncomputable def scoresStdDev (rs : List SkillRecord) : ℝ :=
  Real.sqrt ((rs.map (fun r => ((r.score : ℝ) - scoresMean rs) ^ 2)).sum /
    (rs.length : ℝ))

/-- Consistency score: `1 - min(1, std_dev/30)`. -/
noncomputable def consistency (rs : List SkillRecord) : ℝ :=
  1 - min 1 (scoresStdDev rs / 30)

/-- Number of distinct domains among the records. -/
def distinctDomainCount (rs : List SkillRecord) : ℕ :=
  (rs.map (fun r => r.domain)).dedup.length

/-- Diversity score: `min(1, distinct_domain_count/4)`. -/
noncomputable def diversity (rs : List SkillRecord) : ℝ :=
  min 1 ((distinctDomainCount rs : ℝ) / 4)

/-- Volume score: `min(1, record_count/10)`. -/
noncomputable def volume (rs : List SkillRecord) : ℝ :=
  min 1 ((rs.length : ℝ) / 10)

/-- Earliest record timestamp (`0` for no records). -/
def minTs : List SkillRecord → ℕ
  | [] => 0
  | r :: t => t.foldr (fun x m => min x.timestamp m) r.timestamp

/-- Latest record timestamp (`0` for no records). -/
def maxTs : List SkillRecord → ℕ
  | [] => 0
  | r :: t => t.foldr (fun x m => max x.timestamp m) r.timestamp

/-- Days spanned by the record history, oldest to newest. -/
noncomputable def spanDays (rs : List SkillRecord) : ℝ :=
  ((maxTs rs - minTs rs : ℕ) : ℝ) / 86400

/-- Longevity score: `min(1, span_days/180)`. -/
noncomputable def longevity (rs : List SkillRecord) : ℝ :=
  min 1 (spanDays rs / 180)

/-- Clamp to `[0, 1]`. -/
noncomputable def clamp01 (x : ℝ) : ℝ := max 0 (min 1 x)

/-- The `trust_index`: canonical §4.4 step 7 weighting, clamped to `[0,1]`;
`0` for an empty history. -/
noncomputable def trustIndex (now : ℕ) (rs : List SkillRecord) : ℝ :=
  if rs = [] then 0
  else clamp01 (weightedScore now rs / 100 * 0.40 + consistency rs * 0.20 +
    diversity rs * 0.10 + volume rs * 0.10 + longevity rs * 0.20)

/-- Credibility tiers of the reputation engine. -/
inductive CredibilityLevel where
  | exceptional | strong | moderate | developing | minimal
  deriving Repr, DecidableEq

/-- The `credibility_level` from `total_reputation`: exceptional ≥ 90, strong
≥ 70, moderate ≥ 50, developing ≥ 30, else minimal. -/
noncomputable def credibilityLevel (rep : ℝ) : CredibilityLevel :=
  if 90 ≤ rep then .exceptional
  else if 70 ≤ rep then .strong
  else if 50 ≤ rep then .moderate
  else if 30 ≤ rep then .developing
  else .minimal

/-- Badge eligibility: `record_count ≥ 3` and `total_reputation ≥ 50` and
`distinct_domain_count ≥ 1`. -/
def verificationBadge (now : ℕ) (rs : List SkillRecord) : Prop :=
  3 ≤ rs.length ∧ 50 ≤ totalReputation now rs ∧ 1 ≤ distinctDomainCount rs

/-- Per-domain aggregate inside a reputation profile. -/
structure DomainScoreAgg where
  domain : List ℕ
  score : ℝ
  recordCount : ℕ
  latestTimestamp : ℕ

/-- Per-domain aggregation: group records by domain, decay-weighted mean
within each group. -/
noncomputable def domainScores (now : ℕ) (rs : List SkillRecord) :
    List DomainScoreAgg :=
  (rs.map (fun r => r.domain)).dedup.map (fun d =>
    let g := rs.filter (fun r => r.domain == d)
    ⟨d, weightedScore now g, g.length, maxTs g⟩)

/-! ### Weighted-mean helper lemmas -/

theorem sum_map_nonneg {α : Type} (l : List α) (f : α → ℝ)
    (h : ∀ x ∈ l, 0 ≤ f x) : 0 ≤ (l.map f).sum := by
  induction l with
  | nil => simp
  | cons a t ih =>
    simp only [List.map_cons, List.sum_cons]
    have := h a (by simp)
    have := ih (fun x hx => h x (by simp [hx]))
    linarith

theorem sum_map_pos {α : Type} (l : List α) (f : α → ℝ) (hne : l ≠ [])
    (h : ∀ x ∈ l, 0 < f x) : 0 < (l.map f).sum := by
  cases l with
  | nil => exact absurd rfl hne
  | cons a t =>
    simp only [List.map_cons, List.sum_cons]
    have ha := h a (by simp)
    have ht : 0 ≤ (t.map f).sum :=
      sum_map_nonneg t f (fun x hx => (h x (by simp [hx])).le)
    linarith

theorem sum_map_mul_const {α : Type} (l : List α) (f : α → ℝ) (c : ℝ) :
    (l.map (fun x => c * f x)).sum = c * (l.map f).sum := by
  induction l with
  | nil => simp
  | cons a t ih => simp [ih, mul_add]

/-- Upper bound on a weighted mean with positive weights. -/
theorem weightedMean_le {α : Type} {l : List α} {v w : α → ℝ} {B : ℝ}
    (hne : l ≠ []) (hw : ∀ x ∈ l, 0 < w x) (hub : ∀ x ∈ l, v x ≤ B) :
    (l.map (fun x => v x * w x)).sum / (l.map w).sum ≤ B := by
  have hden : 0 < (l.map w).sum := sum_map_pos l w hne hw
  rw [div_le_iff₀ hden]
  calc (l.map (fun x => v x * w x)).sum
      ≤ (l.map (fun x => B * w x)).sum := by
        apply List.sum_le_sum
        intro i hi
        exact mul_le_mul_of_nonneg_right (hub i hi) (hw i hi).le
    _ = B * (l.map w).sum := sum_map_mul_const l w B

/-- Lower bound on a weighted mean with positive weights. -/
theorem le_weightedMean {α : Type} {l : List α} {v w : α → ℝ} {B : ℝ}
    (hne : l ≠ []) (hw : ∀ x ∈ l, 0 < w x) (hlb : ∀ x ∈ l, B ≤ v x) :
    B ≤ (l.map (fun x => v x * w x)).sum / (l.map w).sum := by
  have hden : 0 < (l.map w).sum := sum_map_pos l w hne hw
  rw [le_div_iff₀ hden]
  calc B * (l.map w).sum
      = (l.map (fun x => B * w x)).sum := (sum_map_mul_const l w B).symm
    _ ≤ (l.map (fun x => v x * w x)).sum := by
        apply List.sum_le_sum
        intro i hi
        exact mul_le_mul_of_nonneg_right (hlb i hi) (hw i hi).le

theorem clamp01_nonneg (x : ℝ) : 0 ≤ clamp01 x := le_max_left 0 _

theorem clamp01_le_one (x : ℝ) : clamp01 x ≤ 1 :=
  max_le zero_le_one (min_le_left 1 x)

theorem decayWeight_pos (now : ℕ) (r : SkillRecord) : 0 < decayWeight now r :=
  Real.exp_pos _

theorem weightedScore_nonneg (now : ℕ) (rs : List SkillRecord) :
    0 ≤ weightedScore now rs := by
  rcases eq_or_ne rs [] with h | h
  · simp [weightedScore, h]
  · exact le_weightedMean h (fun x _ => decayWeight_pos now x)
      (fun x _ => by positivity)

theorem weightedScore_le_100 (now : ℕ) (rs : List SkillRecord)
    (hsc : ∀ r ∈ rs, r.score ≤ 100) : weightedScore now rs ≤ 100 := by
  rcases eq_or_ne rs [] with h | h
  · simp [weightedScore, h]
  · exact weightedMean_le h (fun x _ => decayWeight_pos now x)
      (fun x hx => by exact_mod_cast hsc x hx)

theorem le_weightedScore_of_le (now : ℕ) (rs : List SkillRecord) (B : ℝ)
    (hne : rs ≠ []) (hlb : ∀ r ∈ rs, B ≤ (r.score : ℝ)) :
    B ≤ weightedScore now rs :=
  le_weightedMean hne (fun x _ => decayWeight_pos now x) hlb

theorem decodeRecords_nil : decodeRecords [] = .ok [] := by
  rw [decodeRecords]
  simp

/-! ## Claim theorems -/

/-- C1: for every valid SkillRecord `r`, `Decode(Encode(r)) == [r]`, and
for every sequence of valid records, decoding the concatenation of their
encodings yields exactly that list, oldest first. -/
theorem c1_codec_roundtrip (r : SkillRecord) (hr : ValidRecord r)
    (rs : List SkillRecord) (hrs : ∀ x ∈ rs, ValidRecord x) :
    decodeRecords (encodeRecord r) = .ok [r] ∧
    decodeRecords (encodeRecords rs) = .ok rs := by
  constructor
  · have h := decodeRecords_encodeRecord_append hr []
    rw [List.append_nil] at h
    rw [h, decodeRecords_nil]
    rfl
  · exact decodeRecords_encodeRecords hrs

/-- Witness for C1 at a concrete record (`mode = "ai-graded"`,
`domain = "python"`, score 85, a 64-byte hash, a positive timestamp). -/
theorem c1_codec_roundtrip_witness :
    decodeRecords (encodeRecord ⟨[97, 105, 45, 103, 114, 97, 100, 101, 100],
        [112, 121, 116, 104, 111, 110], 85, List.replicate 64 48, 1700000000⟩) =
      .ok [⟨[97, 105, 45, 103, 114, 97, 100, 101, 100],
        [112, 121, 116, 104, 111, 110], 85, List.replicate 64 48, 1700000000⟩] ∧
    decodeRecords (encodeRecords [⟨[97, 105, 45, 103, 114, 97, 100, 101, 100],
        [112, 121, 116, 104, 111, 110], 85, List.replicate 64 48, 1700000000⟩]) =
      .ok [⟨[97, 105, 45, 103, 114, 97, 100, 101, 100],
        [112, 121, 116, 104, 111, 110], 85, List.replicate 64 48, 1700000000⟩] :=
  c1_codec_roundtrip _ (by constructor <;> decide) _
    (by
      intro x hx
      rw [List.mem_singleton] at hx
      subst hx
      constructor <;> decide)

/-- A blob whose single record struct declares `mode_offset = 22` while
the struct is only 22 bytes long: the offset falls outside the struct. -/
def badOffsetBlob : List ℕ :=
  [0, 22] ++ [0, 22, 0, 0, 0, 0, 0, 0, 0, 0, 0, 0, 0, 0, 0, 0, 0, 0, 0, 0, 0, 0]

/-- A blob whose single record carries a `mode` payload of the lone byte `0xFF`,
which is not valid UTF-8 (offsets: mode at 22, domain/artifact at 25). -/
def badUtf8Blob : List ℕ :=
  [0, 27] ++ [0, 22, 0, 25, 0, 0, 0, 0, 0, 0, 0, 0, 0, 25, 0, 0, 0, 0, 0, 0, 0, 0] ++
    [0, 1, 255] ++ [0, 0]

/-- A blob whose single record declares `score = 101`. -/
def badScoreBlob : List ℕ :=
  [0, 22] ++ [0, 0, 0, 0, 0, 0, 0, 0, 0, 0, 0, 101, 0, 0, 0, 0, 0, 0, 0, 0, 0, 0]

theorem readString_eq_some_payload (s : List ℕ) (off : ℕ)
    (h : ¬ offsetOutOfBounds s off) : readString s off = some (payloadAt s off) := by
  unfold offsetOutOfBounds at h
  push_neg at h
  rw [readString, if_pos (by omega), if_pos (by omega)]

theorem readString_eq_none_iff (s : List ℕ) (off : ℕ) :
    readString s off = none ↔ offsetOutOfBounds s off := by
  constructor
  · intro h
    by_contra hc
    rw [readString_eq_some_payload s off hc] at h
    exact Option.noConfusion h
  · intro hb
    rw [readString]
    unfold offsetOutOfBounds at hb
    rcases hb with hb | hb
    · rw [if_neg (by omega)]
    · by_cases h1 : off + 2 ≤ s.length
      · rw [if_pos h1, if_neg (by omega)]
      · rw [if_neg h1]

theorem decodeStruct_invalidOffset (s : List ℕ) (h22 : 22 ≤ s.length)
    (hbad : offsetOutOfBounds s (modeOffOf s) ∨ offsetOutOfBounds s (domainOffOf s) ∨
      offsetOutOfBounds s (artOffOf s)) :
    decodeStruct s = .error .invalidOffset := by
  rw [decodeStruct, if_pos h22]
  rcases hbad with hb | hb | hb
  · rw [(readString_eq_none_iff s (modeOffOf s)).mpr hb]
  · cases hm : readString s (modeOffOf s) with
    | none => rfl
    | some m =>
      rw [(readString_eq_none_iff s (domainOffOf s)).mpr hb]
  · cases hm : readString s (modeOffOf s) with
    | none => rfl
    | some m =>
      cases hd : readString s (domainOffOf s) with
      | none => rfl
      | some d =>
        rw [(readString_eq_none_iff s (artOffOf s)).mpr hb]

theorem decodeStruct_utf8Error (s : List ℕ) (h22 : 22 ≤ s.length)
    (hm : ¬ offsetOutOfBounds s (modeOffOf s))
    (hd : ¬ offsetOutOfBounds s (domainOffOf s))
    (ha : ¬ offsetOutOfBounds s (artOffOf s))
    (hbad : validUtf8 (payloadAt s (modeOffOf s)) = false ∨
      validUtf8 (payloadAt s (domainOffOf s)) = false ∨
      validUtf8 (payloadAt s (artOffOf s)) = false) :
    decodeStruct s = .error .utf8 := by
  rw [decodeStruct, if_pos h22, readString_eq_some_payload s _ hm,
    readString_eq_some_payload s _ hd, readString_eq_some_payload s _ ha]
  rcases hbad with hb | hb | hb <;> simp [hb]

theorem decodeStruct_fieldBoundsError (s : List ℕ) (h22 : 22 ≤ s.length)
    (hm : ¬ offsetOutOfBounds s (modeOffOf s))
    (hd : ¬ offsetOutOfBounds s (domainOffOf s))
    (ha : ¬ offsetOutOfBounds s (artOffOf s))
    (hu1 : validUtf8 (payloadAt s (modeOffOf s)) = true)
    (hu2 : validUtf8 (payloadAt s (domainOffOf s)) = true)
    (hu3 : validUtf8 (payloadAt s (artOffOf s)) = true)
    (hscore : 100 < scoreOf s) :
    decodeStruct s = .error .fieldBounds := by
  rw [decodeStruct, if_pos h22, readString_eq_some_payload s _ hm,
    readString_eq_some_payload s _ hd, readString_eq_some_payload s _ ha]
  have hns : ¬ (scoreOf s ≤ 100) := by omega
  simp [hu1, hu2, hu3, hns]

/-- Any blob whose declared first-record length exceeds the remaining
bytes decodes to `TruncatedRecordError`. -/
theorem decodeRecords_truncated (bs : List ℕ) (hne : bs ≠ [])
    (htr : bs.length < 2 + declaredLen bs) :
    decodeRecords bs = .error .truncated := by
  unfold declaredLen at htr
  rw [decodeRecords]
  rw [if_neg (by simp [hne])]
  by_cases h2 : 2 ≤ bs.length
  · rw [dif_pos h2, dif_neg (by omega)]
  · rw [dif_neg h2]

/-- A decode error in the first record struct is the result of the whole
decode call. -/
theorem decodeRecords_first_struct_error (bs : List ℕ) (h2 : 2 ≤ bs.length)
    (hlen : 2 + declaredLen bs ≤ bs.length) (e : DecodeError)
    (he : decodeStruct (firstStruct bs) = .error e) :
    decodeRecords bs = .error e := by
  unfold declaredLen at hlen
  unfold firstStruct declaredLen at he
  rw [decodeRecords]
  rw [if_neg (by rcases bs with _ | ⟨a, t⟩ <;> simp at h2 ⊢)]
  rw [dif_pos h2, dif_pos hlen, he]

/-- Decode errors propagate through any well-formed record prefix: a
defect anywhere in the stored sequence fails the whole decode call. -/
theorem decodeRecords_append_error {rs : List SkillRecord}
    (hrs : ∀ r ∈ rs, ValidRecord r) {bs : List ℕ} {e : DecodeError}
    (h : decodeRecords bs = .error e) :
    decodeRecords (encodeRecords rs ++ bs) = .error e := by
  induction rs with
  | nil => simpa [encodeRecords] using h
  | cons r t ih =>
    have hr : ValidRecord r := hrs r (by simp)
    have ht : ∀ x ∈ t, ValidRecord x := fun x hx => hrs x (by simp [hx])
    rw [encodeRecords, List.map_cons, List.flatten_cons, List.append_assoc,
      decodeRecords_encodeRecord_append hr, ← encodeRecords, ih ht]
    rfl

/-- C4: universally over malformed inputs (at any record position after
any well-formed prefix): decoding fails with `TruncatedRecordError` when
fewer bytes remain than the declared record length requires, with
`InvalidOffsetError` when any field offset falls outside the struct
bounds, with `Utf8DecodeError` when a string payload is not valid UTF-8,
with `FieldBoundsError` when `score > 100`; and an erroring decode never
returns a (partial) record list. -/
theorem c4_decode_errors :
    (∀ (rs : List SkillRecord), (∀ r ∈ rs, ValidRecord r) → ∀ bs : List ℕ,
      bs ≠ [] → bs.length < 2 + declaredLen bs →
      decodeRecords (encodeRecords rs ++ bs) = .error .truncated) ∧
    (∀ (rs : List SkillRecord), (∀ r ∈ rs, ValidRecord r) → ∀ bs : List ℕ,
      2 ≤ bs.length → 2 + declaredLen bs ≤ bs.length →
      22 ≤ (firstStruct bs).length →
      (offsetOutOfBounds (firstStruct bs) (modeOffOf (firstStruct bs)) ∨
        offsetOutOfBounds (firstStruct bs) (domainOffOf (firstStruct bs)) ∨
        offsetOutOfBounds (firstStruct bs) (artOffOf (firstStruct bs))) →
      decodeRecords (encodeRecords rs ++ bs) = .error .invalidOffset) ∧
    (∀ (rs : List SkillRecord), (∀ r ∈ rs, ValidRecord r) → ∀ bs : List ℕ,
      2 ≤ bs.length → 2 + declaredLen bs ≤ bs.length →
      22 ≤ (firstStruct bs).length →
      ¬ offsetOutOfBounds (firstStruct bs) (modeOffOf (firstStruct bs)) →
      ¬ offsetOutOfBounds (firstStruct bs) (domainOffOf (firstStruct bs)) →
      ¬ offsetOutOfBounds (firstStruct bs) (artOffOf (firstStruct bs)) →
      (validUtf8 (payloadAt (firstStruct bs) (modeOffOf (firstStruct bs))) = false ∨
        validUtf8 (payloadAt (firstStruct bs) (domainOffOf (firstStruct bs))) = false ∨
        validUtf8 (payloadAt (firstStruct bs) (artOffOf (firstStruct bs))) = false) →
      decodeRecords (encodeRecords rs ++ bs) = .error .utf8) ∧
    (∀ (rs : List SkillRecord), (∀ r ∈ rs, ValidRecord r) → ∀ bs : List ℕ,
      2 ≤ bs.length → 2 + declaredLen bs ≤ bs.length →
      22 ≤ (firstStruct bs).length →
      ¬ offsetOutOfBounds (firstStruct bs) (modeOffOf (firstStruct bs)) →
      ¬ offsetOutOfBounds (firstStruct bs) (domainOffOf (firstStruct bs)) →
      ¬ offsetOutOfBounds (firstStruct bs) (artOffOf (firstStruct bs)) →
      validUtf8 (payloadAt (firstStruct bs) (modeOffOf (firstStruct bs))) = true →
      validUtf8 (payloadAt (firstStruct bs) (domainOffOf (firstStruct bs))) = true →
      validUtf8 (payloadAt (firstStruct bs) (artOffOf (firstStruct bs))) = true →
      100 < scoreOf (firstStruct bs) →
      decodeRecords (encodeRecords rs ++ bs) = .error .fieldBounds) ∧
    (∀ (bs : List ℕ) (e : DecodeError), decodeRecords bs = .error e →
      ∀ out, decodeRecords bs ≠ .ok out) := by
  refine ⟨?_, ?_, ?_, ?_, ?_⟩
  · intro rs hrs bs hne htr
    exact decodeRecords_append_error hrs (decodeRecords_truncated bs hne htr)
  · intro rs hrs bs h2 hlen h22 hbad
    exact decodeRecords_append_error hrs
      (decodeRecords_first_struct_error bs h2 hlen _
        (decodeStruct_invalidOffset _ h22 hbad))
  · intro rs hrs bs h2 hlen h22 hm hd ha hbad
    exact decodeRecords_append_error hrs
      (decodeRecords_first_struct_error bs h2 hlen _
        (decodeStruct_utf8Error _ h22 hm hd ha hbad))
  · intro rs hrs bs h2 hlen h22 hm hd ha hu1 hu2 hu3 hscore
    exact decodeRecords_append_error hrs
      (decodeRecords_first_struct_error bs h2 hlen _
        (decodeStruct_fieldBoundsError _ h22 hm hd ha hu1 hu2 hu3 hscore))
  · intro bs e he out hok
    rw [he] at hok
    exact Except.noConfusion hok

/-- Witness for C4: each universal clause applied at a concrete malformed
blob (an empty well-formed prefix, then a truncated blob `[0, 5]`, an
out-of-bounds offset, an invalid UTF-8 payload, and score 101). -/
theorem c4_decode_errors_witness :
    decodeRecords [0, 5] = .error .truncated ∧
    decodeRecords badOffsetBlob = .error .invalidOffset ∧
    decodeRecords badUtf8Blob = .error .utf8 ∧
    decodeRecords badScoreBlob = .error .fieldBounds ∧
    ∀ out, decodeRecords [0, 5] ≠ .ok out := by
  obtain ⟨h1, h2, h3, h4, h5⟩ := c4_decode_errors
  refine ⟨h1 [] (by simp) [0, 5] (by decide) (by decide),
    h2 [] (by simp) badOffsetBlob (by decide) (by decide) (by decide) (by decide),
    h3 [] (by simp) badUtf8Blob (by decide) (by decide) (by decide) (by decide)
      (by decide) (by decide) (by decide),
    h4 [] (by simp) badScoreBlob (by decide) (by decide) (by decide) (by decide)
      (by decide) (by decide) (by decide) (by decide) (by decide) (by decide),
    h5 [0, 5] .truncated (h1 [] (by simp) [0, 5] (by decide) (by decide))⟩

/-- C3: for every integer score in `[0,100]`, every tier computation in
the frontend (SubmitPage, VerifierPage, ExplorerPage, per-record tier,
ScoreCircle label and color) realizes the mapping of the spec: exceptional
≥ 90, strong 70–89, moderate 50–69, developing 30–49, else minimal, with
lower bounds inclusive. -/
theorem c3_tier_mapping (s : ℕ) (hs : s ≤ 100) :
    submitTierLabel s = specCredibilityTier s ∧
    verifierTierLabel s = specCredibilityTier s ∧
    explorerTierLabel s = specCredibilityTier s ∧
    recordTierLabel s = specCredibilityTier s ∧
    scoreCircleTierLabel s = (specCredibilityTier s).capitalize ∧
    scoreCircleTierColor s = "var(--tier-" ++ specCredibilityTier s ++ ")" := by
  unfold submitTierLabel verifierTierLabel explorerTierLabel recordTierLabel
    scoreCircleTierLabel scoreCircleTierColor specCredibilityTier
  refine ⟨?_, ?_, ?_, ?_, ?_, ?_⟩ <;>
    split_ifs <;> first | rfl | omega

/-- Witness for C3 at score 75 (a `strong` score). -/
theorem c3_tier_mapping_witness :
    submitTierLabel 75 = specCredibilityTier 75 ∧
    verifierTierLabel 75 = specCredibilityTier 75 ∧
    explorerTierLabel 75 = specCredibilityTier 75 ∧
    recordTierLabel 75 = specCredibilityTier 75 ∧
    scoreCircleTierLabel 75 = (specCredibilityTier 75).capitalize ∧
    scoreCircleTierColor 75 = "var(--tier-" ++ specCredibilityTier 75 ++ ")" :=
  c3_tier_mapping 75 (by decide)

/-- C10 counterexample: the claimed "the submitted hash always has length
exactly 64" fails — when the analysis metadata supplies a hash of another
length, `handleSubmit` submits it unchanged.  Concretely, a metadata
`artifact_hash` of `"abc"` is submitted with length 3. -/
theorem c10_hash_length_counterexample :
    (artifactHashVal ⟨0, [], ⟨some "abc", none, none⟩, none⟩).length ≠ 64 := by
  decide

/-- C10 (amended): `handleSubmit` sets `score = round(overall_score*100)`
(JS Math.round); the domain string is the first detected domain, with
a colon and the subdomain appended exactly when that domain carries a (non-empty)
subdomain; and when the metadata carries none of `artifact_hash`,
`sha256`, `project_hash` (absent or empty), the hash falls back to 64 zero
characters — so in the fallback case the submitted hash has length exactly
64 (a metadata-supplied hash is submitted unchanged, at its own length). -/
theorem c10_submit_arguments (a : AnalysisResult) (d : DomainEntry)
    (rest : List DomainEntry) (hd : a.domains = d :: rest) (hdom : d.domain ≠ "") :
    scoreVal a = ⌊a.overall_score * 100 + 1 / 2⌋ ∧
    domainVal a = (match d.subdomain with
      | some s => if s = "" then d.domain else d.domain ++ ":" ++ s
      | none => d.domain) ∧
    ((a.metadata.artifact_hash = none ∨ a.metadata.artifact_hash = some "") →
      (a.metadata.sha256 = none ∨ a.metadata.sha256 = some "") →
      (a.metadata.project_hash = none ∨ a.metadata.project_hash = some "") →
      artifactHashVal a = zeroHash) ∧
    zeroHash.length = 64 := by
  refine ⟨rfl, ?_, ?_, by decide⟩
  · simp only [domainVal, hd, List.head?_cons]
    rw [if_neg hdom]
  · intro h1 h2 h3
    rcases h1 with h | h <;> rcases h2 with h' | h' <;> rcases h3 with h'' | h'' <;>
      simp [artifactHashVal, jsOrString, h, h', h'']

/-- Witness for C10 (amended) at a concrete analysis result. -/
theorem c10_submit_arguments_witness :
    scoreVal ⟨17 / 20, [⟨"python", some "web3"⟩], ⟨none, none, none⟩, some "repo"⟩ =
      ⌊(17 / 20 : ℚ) * 100 + 1 / 2⌋ ∧
    domainVal ⟨17 / 20, [⟨"python", some "web3"⟩], ⟨none, none, none⟩, some "repo"⟩ =
      (match (some "web3" : Option String) with
        | some s => if s = "" then "python" else "python" ++ ":" ++ s
        | none => "python") ∧
    (((⟨none, none, none⟩ : AnalysisMetadata).artifact_hash = none ∨
        (⟨none, none, none⟩ : AnalysisMetadata).artifact_hash = some "") →
      ((⟨none, none, none⟩ : AnalysisMetadata).sha256 = none ∨
        (⟨none, none, none⟩ : AnalysisMetadata).sha256 = some "") →
      ((⟨none, none, none⟩ : AnalysisMetadata).project_hash = none ∨
        (⟨none, none, none⟩ : AnalysisMetadata).project_hash = some "") →
      artifactHashVal ⟨17 / 20, [⟨"python", some "web3"⟩], ⟨none, none, none⟩,
        some "repo"⟩ = zeroHash) ∧
    zeroHash.length = 64 :=
  c10_submit_arguments _ ⟨"python", some "web3"⟩ [] rfl (by decide)

/-- C2: for every non-empty record sequence the trust index is the
canonical §4.4 step 7 weighted combination, its five weights sum to 1,
and the result is clamped to `[0,1]`. -/
theorem c2_trust_index_formula (now : ℕ) (rs : List SkillRecord) (hne : rs ≠ []) :
    trustIndex now rs =
      clamp01 (weightedScore now rs / 100 * 0.40 + consistency rs * 0.20 +
        diversity rs * 0.10 + volume rs * 0.10 + longevity rs * 0.20) ∧
    (0.40 + 0.20 + 0.10 + 0.10 + 0.20 : ℝ) = 1 ∧
    0 ≤ trustIndex now rs ∧ trustIndex now rs ≤ 1 := by
  refine ⟨by rw [trustIndex, if_neg hne], by norm_num, ?_, ?_⟩
  · rw [trustIndex, if_neg hne]
    exact clamp01_nonneg _
  · rw [trustIndex, if_neg hne]
    exact clamp01_le_one _

/-- Witness for C2 at a concrete one-record history. -/
theorem c2_trust_index_formula_witness :
    trustIndex 1 [⟨[], [], 50, [], 1⟩] =
      clamp01 (weightedScore 1 [⟨[], [], 50, [], 1⟩] / 100 * 0.40 +
        consistency [⟨[], [], 50, [], 1⟩] * 0.20 +
        diversity [⟨[], [], 50, [], 1⟩] * 0.10 +
        volume [⟨[], [], 50, [], 1⟩] * 0.10 +
        longevity [⟨[], [], 50, [], 1⟩] * 0.20) ∧
    (0.40 + 0.20 + 0.10 + 0.10 + 0.20 : ℝ) = 1 ∧
    0 ≤ trustIndex 1 [⟨[], [], 50, [], 1⟩] ∧
    trustIndex 1 [⟨[], [], 50, [], 1⟩] ≤ 1 :=
  c2_trust_index_formula 1 [⟨[], [], 50, [], 1⟩] (by decide)

/-- Numeric bound for the 180-day half-life: `exp(-0.693)` is within
`0.01` of `1/2`. -/
theorem exp_half_life_approx : |Real.exp (-0.693 * (180 : ℝ) / 180) - 1 / 2| < 1 / 100 := by
  have harg : (-0.693 * (180 : ℝ) / 180) = -(0.693 : ℝ) := by norm_num
  rw [harg]
  have hx : |(0.693 : ℝ)| ≤ 1 := by rw [abs_of_nonneg] <;> norm_num
  have hb := Real.exp_bound hx (n := 4) (by norm_num)
  have h1 := (abs_le.mp hb).1
  have h2 := (abs_le.mp hb).2
  norm_num [Finset.sum_range_succ, Nat.factorial, abs_of_nonneg] at h1 h2
  have hlo : (1.97 : ℝ) ≤ Real.exp 0.693 := by linarith
  have hhi : Real.exp 0.693 ≤ 2.01 := by linarith
  have hpos : (0 : ℝ) < Real.exp 0.693 := Real.exp_pos _
  rw [Real.exp_neg, abs_lt]
  constructor
  · have hub : (2.01 : ℝ)⁻¹ ≤ (Real.exp 0.693)⁻¹ := inv_anti₀ hpos hhi
    have : (49 : ℝ) / 100 < (2.01 : ℝ)⁻¹ := by norm_num
    linarith
  · have hlb : (Real.exp 0.693)⁻¹ ≤ (1.97 : ℝ)⁻¹ :=
      inv_anti₀ (by norm_num) hlo
    have : (1.97 : ℝ)⁻¹ < 51 / 100 := by norm_num
    linarith

/-- C5: the decay weight is `exp(-0.693·age_days/180)`; it is strictly
antitone in age (the weight of a younger record is strictly greater), and at
`age_days = 180` it is within `0.01` of `1/2`. -/
theorem c5_decay_weight (now : ℕ) (r1 r2 r180 : SkillRecord)
    (hlt : ageDays now r1 < ageDays now r2) (h180 : ageDays now r180 = 180) :
    decayWeight now r1 = Real.exp (-0.693 * ageDays now r1 / 180) ∧
    decayWeight now r2 < decayWeight now r1 ∧
    |decayWeight now r180 - 1 / 2| < 1 / 100 := by
  refine ⟨rfl, ?_, ?_⟩
  · rw [decayWeight, decayWeight]
    exact Real.exp_lt_exp.mpr (by nlinarith)
  · rw [decayWeight, h180]
    exact exp_half_life_approx

/-- Witness for C5: evaluation time 180 days after epoch, a fresh record
(age 0) versus an epoch record (age 180 days). -/
theorem c5_decay_weight_witness :
    decayWeight 15552000 ⟨[], [], 80, [], 15552000⟩ =
      Real.exp (-0.693 * ageDays 15552000 ⟨[], [], 80, [], 15552000⟩ / 180) ∧
    decayWeight 15552000 ⟨[], [], 80, [], 0⟩ <
      decayWeight 15552000 ⟨[], [], 80, [], 15552000⟩ ∧
    |decayWeight 15552000 ⟨[], [], 80, [], 0⟩ - 1 / 2| < 1 / 100 :=
  c5_decay_weight 15552000 ⟨[], [], 80, [], 15552000⟩ ⟨[], [], 80, [], 0⟩
    ⟨[], [], 80, [], 0⟩ (by norm_num [ageDays]) (by norm_num [ageDays])

/-- C6: the verification badge holds exactly when `record_count ≥ 3`,
`total_reputation ≥ 50` and `distinct_domain_count ≥ 1`; three records of
score ≥ 50 in one domain earn it, two do not. -/
theorem c6_verification_badge (now : ℕ) (rs : List SkillRecord)
    (r1 r2 r3 : SkillRecord)
    (hdom12 : r2.domain = r1.domain) (hdom13 : r3.domain = r1.domain)
    (h1 : 50 ≤ r1.score) (h2 : 50 ≤ r2.score) (h3 : 50 ≤ r3.score) :
    (verificationBadge now rs ↔
      3 ≤ rs.length ∧ 50 ≤ totalReputation now rs ∧ 1 ≤ distinctDomainCount rs) ∧
    verificationBadge now [r1, r2, r3] ∧
    ¬ verificationBadge now [r1, r2] := by
  refine ⟨Iff.rfl, ⟨by simp, ?_, ?_⟩, ?_⟩
  · apply le_weightedScore_of_le now _ 50 (by simp)
    intro r hr
    simp only [List.mem_cons, List.not_mem_nil, or_false] at hr
    rcases hr with h | h | h
    · subst h; exact_mod_cast h1
    · subst h; exact_mod_cast h2
    · subst h; exact_mod_cast h3
  · have hdne : (([r1, r2, r3].map (fun r => r.domain)).dedup) ≠ [] := by
      rw [Ne, List.dedup_eq_nil]
      simp
    have := List.length_pos.mpr hdne
    rw [distinctDomainCount]
    omega
  · intro hbad
    have h := hbad.1
    simp at h

/-- Witness for C6 at three concrete same-domain records of score 60. -/
theorem c6_verification_badge_witness :
    (verificationBadge 10 [⟨[], [100], 60, [], 5⟩] ↔
      3 ≤ ([⟨[], [100], 60, [], 5⟩] : List SkillRecord).length ∧
      50 ≤ totalReputation 10 [⟨[], [100], 60, [], 5⟩] ∧
      1 ≤ distinctDomainCount [⟨[], [100], 60, [], 5⟩]) ∧
    verificationBadge 10 [⟨[], [100], 60, [], 5⟩, ⟨[], [100], 60, [], 6⟩,
      ⟨[], [100], 60, [], 7⟩] ∧
    ¬ verificationBadge 10 [⟨[], [100], 60, [], 5⟩, ⟨[], [100], 60, [], 6⟩] :=
  c6_verification_badge 10 [⟨[], [100], 60, [], 5⟩] ⟨[], [100], 60, [], 5⟩
    ⟨[], [100], 60, [], 6⟩ ⟨[], [100], 60, [], 7⟩ rfl rfl (by decide) (by decide)
    (by decide)

/-- C7: outputs stay within their declared bounds for all inputs:
`total_reputation ∈ [0,100]`, `trust_index ∈ [0,1]`, and for any scoring
call with positive weights and `[0,1]` raw scores, `overall_score` and
`confidence` lie in `[0,1]`. -/
theorem c7_bounded_outputs (now : ℕ) (rs : List SkillRecord)
    (hsc : ∀ r ∈ rs, r.score ≤ 100) :
    (0 ≤ totalReputation now rs ∧ totalReputation now rs ≤ 100) ∧
    (0 ≤ trustIndex now rs ∧ trustIndex now rs ≤ 1) ∧
    (∀ sigs : List Signal, (∀ s ∈ sigs, 0 < s.weight) →
      (∀ s ∈ sigs, ∀ x, s.rawScore = some x → 0 ≤ x ∧ x ≤ 1) →
      (0 ≤ overallScore sigs ∧ overallScore sigs ≤ 1) ∧
      (0 ≤ confidence sigs ∧ confidence sigs ≤ 1)) := by
  refine ⟨⟨weightedScore_nonneg now rs, weightedScore_le_100 now rs hsc⟩, ?_, ?_⟩
  · rw [trustIndex]
    split_ifs with h
    · norm_num
    · exact ⟨clamp01_nonneg _, clamp01_le_one _⟩
  · intro sigs hw hraw
    have hrawb : ∀ s ∈ evaluatedSignals sigs, 0 ≤ rawOf s ∧ rawOf s ≤ 1 := by
      intro s hs
      have hmem := List.mem_of_mem_filter hs
      have hsome := (List.mem_filter.mp hs).2
      cases hx : s.rawScore with
      | none => rw [hx] at hsome; simp at hsome
      | some x =>
        have hb := hraw s hmem x hx
        rw [rawOf, hx]
        simpa using hb
    have hwev : ∀ s ∈ evaluatedSignals sigs, 0 < s.weight := fun s hs =>
      hw s (List.mem_of_mem_filter hs)
    constructor
    · rcases eq_or_ne (evaluatedSignals sigs) [] with he | he
      · rw [overallScore, he]
        simp
      · constructor
        · rw [overallScore]
          exact @le_weightedMean Signal (evaluatedSignals sigs) rawOf
            (fun s => s.weight) 0 he hwev (fun x hx => (hrawb x hx).1)
        · rw [overallScore]
          exact @weightedMean_le Signal (evaluatedSignals sigs) rawOf
            (fun s => s.weight) 1 he hwev (fun x hx => (hrawb x hx).2)
    · rcases eq_or_ne sigs [] with h0 | h0
      · subst h0
        rw [confidence]
        simp [evaluatedSignals]
      · have hlen : 0 < (sigs.length : ℝ) := by
          have := List.length_pos.mpr h0
          exact_mod_cast this
        constructor
        · rw [confidence]
          positivity
        · rw [confidence, div_le_one hlen]
          have := List.length_filter_le (fun s => s.rawScore.isSome) sigs
          exact_mod_cast this

/-- Witness for C7 at a one-record history of score 100 and a concrete
two-signal scoring call (one evaluated, one skipped). -/
theorem c7_bounded_outputs_witness :
    (0 ≤ totalReputation 0 [⟨[], [], 100, [], 1⟩] ∧
      totalReputation 0 [⟨[], [], 100, [], 1⟩] ≤ 100) ∧
    (0 ≤ trustIndex 0 [⟨[], [], 100, [], 1⟩] ∧
      trustIndex 0 [⟨[], [], 100, [], 1⟩] ≤ 1) ∧
    (∀ sigs : List Signal, (∀ s ∈ sigs, 0 < s.weight) →
      (∀ s ∈ sigs, ∀ x, s.rawScore = some x → 0 ≤ x ∧ x ≤ 1) →
      (0 ≤ overallScore sigs ∧ overallScore sigs ≤ 1) ∧
      (0 ≤ confidence sigs ∧ confidence sigs ≤ 1)) :=
  c7_bounded_outputs 0 [⟨[], [], 100, [], 1⟩] (by decide)

/-- C8: `overall_score` is the weighted sum over evaluated signals
renormalized by the sum of their weights; a signal is skipped exactly
when its metadata is entirely absent (`rawScore = none`) — a raw score of
`0` still counts — and when every evaluated signal is perfect the overall
score reaches the full ceiling `1`. -/
theorem c8_renormalization (sigs : List Signal)
    (hw : ∀ s ∈ sigs, 0 < s.weight) (hne : evaluatedSignals sigs ≠ []) :
    overallScore sigs =
      ((evaluatedSignals sigs).map (fun s => rawOf s * s.weight)).sum /
        ((evaluatedSignals sigs).map (fun s => s.weight)).sum ∧
    (∀ s ∈ sigs, s.rawScore ≠ none → s ∈ evaluatedSignals sigs) ∧
    (∀ s ∈ sigs, s.rawScore = none → s ∉ evaluatedSignals sigs) ∧
    ((∀ s ∈ evaluatedSignals sigs, rawOf s = 1) → overallScore sigs = 1) := by
  refine ⟨rfl, ?_, ?_, ?_⟩
  · intro s hs hsome
    rw [evaluatedSignals, List.mem_filter]
    refine ⟨hs, ?_⟩
    cases h : s.rawScore with
    | none => exact absurd h hsome
    | some x => simp [h]
  · intro s _ hnone hmem
    have h := (List.mem_filter.mp hmem).2
    rw [hnone] at h
    simp at h
  · intro hall
    rw [overallScore]
    have hmapeq : (evaluatedSignals sigs).map (fun s => rawOf s * s.weight) =
        (evaluatedSignals sigs).map (fun s => s.weight) := by
      apply List.map_congr_left
      intro x hx
      rw [hall x hx, one_mul]
    rw [hmapeq]
    exact div_self (ne_of_gt (sum_map_pos _ _ hne (fun s hs =>
      hw s (List.mem_of_mem_filter hs))))

/-- Witness for C8 at a concrete signal list: one evaluated signal of raw
score 1 and one skipped signal. -/
theorem c8_renormalization_witness :
    overallScore [⟨0.2, some 1⟩, ⟨0.8, none⟩] =
      ((evaluatedSignals [⟨0.2, some 1⟩, ⟨0.8, none⟩]).map
          (fun s => rawOf s * s.weight)).sum /
        ((evaluatedSignals [⟨0.2, some 1⟩, ⟨0.8, none⟩]).map
          (fun s => s.weight)).sum ∧
    (∀ s ∈ [⟨0.2, some 1⟩, ⟨0.8, (none : Option ℝ)⟩], s.rawScore ≠ none →
      s ∈ evaluatedSignals [⟨0.2, some 1⟩, ⟨0.8, none⟩]) ∧
    (∀ s ∈ [⟨0.2, some 1⟩, ⟨0.8, (none : Option ℝ)⟩], s.rawScore = none →
      s ∉ evaluatedSignals [⟨0.2, some 1⟩, ⟨0.8, none⟩]) ∧
    ((∀ s ∈ evaluatedSignals [⟨0.2, some 1⟩, ⟨0.8, none⟩], rawOf s = 1) →
      overallScore [⟨0.2, some 1⟩, ⟨0.8, none⟩] = 1) :=
  c8_renormalization [⟨0.2, some 1⟩, ⟨0.8, none⟩]
    (by
      intro s hs
      simp only [List.mem_cons, List.not_mem_nil, or_false] at hs
      rcases hs with h | h <;> subst h <;> norm_num)
    (by simp [evaluatedSignals])

/-- C9: the defined defaults of the aggregation engine: zero records give
`total_reputation = 0`, `credibility_level = minimal`, `trust_index = 0`,
no badge, and empty `domain_scores`; a single record gives
`consistency = 1` and `longevity = 0`. -/
theorem c9_edge_defaults (now : ℕ) (r : SkillRecord) :
    totalReputation now [] = 0 ∧
    credibilityLevel (totalReputation now []) = .minimal ∧
    trustIndex now [] = 0 ∧
    ¬ verificationBadge now [] ∧
    domainScores now [] = [] ∧
    consistency [r] = 1 ∧
    longevity [r] = 0 := by
  have h0 : totalReputation now [] = 0 := by
    rw [totalReputation, weightedScore]
    simp
  refine ⟨h0, ?_, ?_, ?_, ?_, ?_, ?_⟩
  · rw [h0, credibilityLevel]
    norm_num
  · rw [trustIndex]
    simp
  · intro h
    have h3 := h.1
    simp at h3
  · rw [domainScores]
    simp
  · have hm : scoresMean [r] = (r.score : ℝ) := by
      rw [scoresMean]
      simp
    rw [consistency, scoresStdDev, hm]
    simp
  · rw [longevity, spanDays, maxTs, minTs]
    simp

end VerifiEd
